import Mathlib

/-! Shallow embedding of the report aggregation and export pipeline of the
car finance backend (src/routes/reports.js), together with theorems about
the report endpoints.  Dates are triples of numerals compared
lexicographically, money amounts are integers, SQL NULL is `Option.none`,
and each endpoint handler is a pure function from the database contents
(a list of customers and a list of payments) to its response value. -/

namespace CarFinance

/-- A calendar date, as compared by SQLite on ISO formatted text:
year first, then month, then day. -/
structure Date where
  y : Nat
  m : Nat
  d : Nat
  deriving DecidableEq, Repr

/-- Strict date comparison, mirroring `due_date < date('now')`. -/
def dateLtB (a b : Date) : Bool :=
  Nat.blt a.y b.y ||
    (a.y == b.y && (Nat.blt a.m b.m || (a.m == b.m && Nat.blt a.d b.d)))

/-- Non-strict date comparison, mirroring `"dueDate" <= date('now')`. -/
def dateLeB (a b : Date) : Bool :=
  Nat.blt a.y b.y ||
    (a.y == b.y && (Nat.blt a.m b.m || (a.m == b.m && Nat.ble a.d b.d)))

/-- Ordering on nullable dates used by `ORDER BY dueDate ASC`:
SQLite sorts NULL values first in ascending order. -/
def optDateLeB (a b : Option Date) : Bool :=
  match a, b with
  | none, _ => true
  | some _, none => false
  | some x, some y => dateLeB x y

/-! ### Insertion sort

Embeds the ORDER BY clauses of the various queries.  The comparison is a
Boolean relation; sortedness holds whenever it is total and transitive. -/

/-- Insert an element into a list, keeping elements already ordered by `le`. -/
def insertLe {α : Type} (le : α → α → Bool) (a : α) : List α → List α
  | [] => [a]
  | b :: bs => if le a b then a :: b :: bs else b :: insertLe le a bs

/-- Insertion sort by a Boolean comparison. -/
def sortByLe {α : Type} (le : α → α → Bool) : List α → List α
  | [] => []
  | a :: as => insertLe le a (sortByLe le as)

/-! ### SQLite LIKE matching

Embeds the `LIKE '%...%'` conditions of the customer report.  SQLite LIKE
is case-insensitive on ASCII letters, `%` matches any run of characters
and `_` matches exactly one character. -/

/-- Lower-case an ASCII letter, as SQLite LIKE folds case. -/
def asciiLower (c : Char) : Char :=
  if 'A' ≤ c ∧ c ≤ 'Z' then Char.ofNat (c.toNat + 32) else c

/-- SQLite LIKE matching of a pattern against a character list.
Recursion is structural on the pattern: a `%` wildcard matches when the
rest of the pattern matches some suffix of the text. -/
def likeMatch : List Char → List Char → Bool
  | [], cs => cs.isEmpty
  | p :: ps, cs =>
    if p = '%' then cs.tails.any (fun t => likeMatch ps t)
    else
      match cs with
      | [] => false
      | c :: cs' => (if p = '_' then true else asciiLower p == asciiLower c)
          && likeMatch ps cs'

/-- `s LIKE pat` on strings. -/
def sqlLike (s pat : String) : Bool := likeMatch pat.toList s.toList

/-- The pattern the customer report builds around a search string. -/
def likePattern (s : String) : String := "%" ++ s ++ "%"

/-- Case-insensitive literal match of a needle against the start of a text. -/
def startsLower : List Char → List Char → Bool
  | [], _ => true
  | _ :: _, [] => false
  | a :: as, c :: cs => (asciiLower a == asciiLower c) && startsLower as cs

/-- Case-insensitive substring occurrence, following the wording of the
spec for the search filter: the needle occurs at the start of some suffix. -/
def ciContainsL (n : List Char) (hay : List Char) : Bool :=
  hay.tails.any (fun t => startsLower n t)

/-- Case-insensitive substring check on strings (spec wording). -/
def ciContains (hay needle : String) : Bool :=
  ciContainsL needle.toList hay.toList

/-- A search string is wildcard-free when it holds no `%` and no `_`. -/
def noWildcards (s : String) : Bool :=
  s.toList.all (fun c => !(c == '%' || c == '_'))

/-! ### Data model

One record per table row.  Fields follow the columns the handlers read.
The customers table also carries the model-level attributes the export
endpoint reads from the ORM object (totalPaid, status and the optionally
defined calculateProfit method, modelled as a presence flag since the
models file is not part of the sources). -/

structure Customer where
  id : Nat
  fullName : String
  phoneNumber : String
  carBrand : Option String
  carModel : String
  carYear : Nat
  carPurchaseCost : Int
  leasingAmount : Int
  monthlyInstallment : Int
  leaseDuration : Nat
  leaseStartDate : Date
  creationDate : Date
  status : String
  totalPaid : Int
  hasCalculateProfit : Bool
  deriving DecidableEq, Repr

structure Payment where
  id : Nat
  customerId : Nat
  amount : Int
  dueDate : Option Date
  paymentDate : Option Date
  status : String
  deriving DecidableEq, Repr

/-- The database contents a request sees. -/
structure DB where
  customers : List Customer
  payments : List Payment
  deriving DecidableEq, Repr

/-! ### SQL and JS primitives -/

/-- SQL SUM: NULL over an empty input, the sum otherwise. -/
def sqlSum (xs : List Int) : Option Int :=
  match xs with
  | [] => none
  | _ => some xs.sum

/-- The JS idiom `x || 0` applied to a nullable SQL sum. -/
def jsNum (x : Option Int) : Int :=
  match x with
  | none => 0
  | some v => v

/-- The JS idiom `x || 0` applied to a number. -/
def jsOrInt (x d : Int) : Int :=
  if x = 0 then d else x

/-- COUNT(DISTINCT ...) over a list of ids. -/
def distinctCount (xs : List Nat) : Nat :=
  xs.dedup.length

/-- Concatenation of a list of lists (used to build join row lists). -/
def concatAll {α : Type} : List (List α) → List α
  | [] => []
  | l :: ls => l ++ concatAll ls

/-- The payments of one customer (`p.customer_id = c.id`). -/
def paymentsOf (payments : List Payment) (cid : Nat) : List Payment :=
  payments.filter (fun p => p.customerId == cid)

def isPaidB (p : Payment) : Bool := p.status == "paid"

def isPendingB (p : Payment) : Bool := p.status == "pending"

/-- The derived overdue predicate on one payment:
status pending and due date strictly before the current date. -/
def isOverduePaymentB (now : Date) (p : Payment) : Bool :=
  isPendingB p &&
    (match p.dueDate with
     | some d => dateLtB d now
     | none => false)

/-- EXISTS a pending payment of the customer. -/
def hasPending (payments : List Payment) (cid : Nat) : Bool :=
  (paymentsOf payments cid).any isPendingB

/-- EXISTS a pending payment of the customer due strictly before now. -/
def hasOverduePending (payments : List Payment) (now : Date) (cid : Nat) :
    Bool :=
  (paymentsOf payments cid).any (isOverduePaymentB now)

/-! ### GET /summary (src/routes/reports.js lines 48 to 85)

The query LEFT JOINs customers with payments and aggregates over the join
rows; the handler then adds `total_profit` from the two nullable sums. -/

/-- The join rows one customer contributes to
`customers c LEFT JOIN payments p ON c.id = p.customer_id`. -/
def custRows (payments : List Payment) (c : Customer) :
    List (Customer × Option Payment) :=
  if paymentsOf payments c.id = [] then [(c, none)]
  else (paymentsOf payments c.id).map (fun p => (c, some p))

def leftJoin (db : DB) : List (Customer × Option Payment) :=
  concatAll (db.customers.map (fun c => custRows db.payments c))

/-- `CASE WHEN p.status = 'paid' THEN p.amount ELSE 0 END` on a join row
(a NULL payment compares to nothing, so it falls to the ELSE branch). -/
def paidCaseAmount (r : Customer × Option Payment) : Int :=
  match r.2 with
  | some p => if isPaidB p then p.amount else 0
  | none => 0

def pendingCaseAmount (r : Customer × Option Payment) : Int :=
  match r.2 with
  | some p => if isPendingB p then p.amount else 0
  | none => 0

structure Summary where
  total_customers : Nat
  total_invested : Option Int
  total_collected : Option Int
  total_pending : Option Int
  overdue_customers : Nat
  completed_customers : Nat
  total_profit : Int
  deriving DecidableEq, Repr

def summaryQuery (db : DB) (now : Date) : Summary :=
  let rows := leftJoin db
  let invested := sqlSum (rows.map (fun r => r.1.leasingAmount))
  let collected := sqlSum (rows.map paidCaseAmount)
  let pending := sqlSum (rows.map pendingCaseAmount)
  { total_customers := distinctCount (rows.map (fun r => r.1.id))
    total_invested := invested
    total_collected := collected
    total_pending := pending
    overdue_customers := distinctCount
      ((rows.filter (fun r => hasOverduePending db.payments now r.1.id)).map
        (fun r => r.1.id))
    completed_customers := distinctCount
      ((rows.filter (fun r => !hasPending db.payments r.1.id)).map
        (fun r => r.1.id))
    total_profit := jsNum collected - jsNum invested }

/-! ### GET /monthly (lines 90 to 115)

Payments grouped by the year-month of the due date
(`strftime('%Y-%m', "dueDate")`, NULL for a NULL due date), one bucket
per distinct key, ordered by period descending. -/

/-- The grouping key of a payment. -/
def periodOf (p : Payment) : Option (Nat × Nat) :=
  p.dueDate.map (fun d => (d.y, d.m))

/-- The overdue predicate of the monthly report:
pending and due on or before the current date (non-strict here). -/
def isOverdueAtMonthly (now : Date) (p : Payment) : Bool :=
  isPendingB p &&
    (match p.dueDate with
     | some d => dateLeB d now
     | none => false)

structure MonthBucket where
  period : Option (Nat × Nat)
  total_payments : Nat
  collected_amount : Int
  overdue_amount : Int
  overdue_payments : Nat
  completed_payments : Nat
  deriving DecidableEq, Repr

def mkBucket (now : Date) (per : Option (Nat × Nat))
    (group : List Payment) : MonthBucket :=
  { period := per
    total_payments := group.length
    collected_amount := (group.map (fun p => if isPaidB p then p.amount else 0)).sum
    overdue_amount := (group.map
      (fun p => if isOverdueAtMonthly now p then p.amount else 0)).sum
    overdue_payments := (group.filter (isOverdueAtMonthly now)).length
    completed_payments := (group.filter isPaidB).length }

/-- `ORDER BY period DESC`; in SQLite a NULL period sorts last in
descending order, so NULL is treated as the smallest key. -/
def perGeB (x y : Option (Nat × Nat)) : Bool :=
  match x, y with
  | _, none => true
  | none, some _ => false
  | some (y1, m1), some (y2, m2) =>
      Nat.blt y2 y1 || (y1 == y2 && Nat.ble m2 m1)

def monthlyReport (db : DB) (now : Date) : List MonthBucket :=
  let keys := (db.payments.map periodOf).dedup
  (sortByLe perGeB keys).map
    (fun k => mkBucket now k (db.payments.filter (fun p => periodOf p == k)))

/-! ### GET /customers (lines 120 to 181)

WHERE clause built from the optional status, search and car brand
filters, grouped by customer id, ordered by creation date descending. -/

def statusCondB (db : DB) (now : Date) (status : Option String)
    (c : Customer) : Bool :=
  match status with
  | none => true
  | some s =>
    if s = "overdue" then hasOverduePending db.payments now c.id
    else if s = "completed" then !hasPending db.payments c.id
    else true

def searchCondB (search : Option String) (c : Customer) : Bool :=
  match search with
  | none => true
  | some s =>
      sqlLike c.fullName (likePattern s) ||
        sqlLike c.phoneNumber (likePattern s)

/-- `c.car_brand = ?`; a NULL brand satisfies no equality. -/
def brandCondB (brand : Option String) (c : Customer) : Bool :=
  match brand with
  | none => true
  | some b =>
    match c.carBrand with
    | some cb => cb == b
    | none => false

def customersBase (db : DB) (now : Date)
    (status search brand : Option String) : List Customer :=
  db.customers.filter
    (fun c => statusCondB db now status c && searchCondB search c
      && brandCondB brand c)

/-- Maximum of a date list (for `MAX(... payment_date ...)`). -/
def maxDateOpt (ds : List Date) : Option Date :=
  ds.foldl
    (fun acc d =>
      match acc with
      | none => some d
      | some m => if dateLeB m d then some d else some m)
    none

/-- Minimum of a date list (for `MIN(... due_date ...)`). -/
def minDateOpt (ds : List Date) : Option Date :=
  ds.foldl
    (fun acc d =>
      match acc with
      | none => some d
      | some m => if dateLeB d m then some d else some m)
    none

structure CustomerRow where
  customer : Customer
  total_payments : Nat
  payments_made : Nat
  total_paid : Int
  remaining_amount : Int
  last_payment_date : Option Date
  next_due_date : Option Date
  deriving DecidableEq, Repr

def rowFor (payments : List Payment) (c : Customer) : CustomerRow :=
  let ps := paymentsOf payments c.id
  { customer := c
    total_payments := ps.length
    payments_made := (ps.filter isPaidB).length
    total_paid := (ps.map (fun p => if isPaidB p then p.amount else 0)).sum
    remaining_amount :=
      (ps.map (fun p => if isPendingB p then p.amount else 0)).sum
    last_payment_date :=
      maxDateOpt ((ps.filter isPaidB).filterMap (fun p => p.paymentDate))
    next_due_date :=
      minDateOpt ((ps.filter isPendingB).filterMap (fun p => p.dueDate)) }

/-- `ORDER BY c.creation_date DESC`. -/
def creationDescB (a b : Customer) : Bool :=
  dateLeB b.creationDate a.creationDate

def customersReport (db : DB) (now : Date)
    (status search brand : Option String) : List CustomerRow :=
  let base := customersBase db now status search brand
  let ids := (base.map (fun c => c.id)).dedup
  let grouped := ids.filterMap (fun cid => base.find? (fun c => c.id == cid))
  (sortByLe creationDescB grouped).map (rowFor db.payments)

/-! ### GET /filtered (lines 213 to 264)

Builds a Sequelize where clause; `new Date` on an unparseable string gives
an invalid date (NaN components) whose comparisons are all false. -/

/-- Numeric value of a run of decimal digit characters. -/
def natOfDigits (cs : List Char) : Nat :=
  cs.foldl (fun a c => a * 10 + (c.toNat - 48)) 0

/-- `ORDER BY dueDate ASC` on payments. -/
def dueAscB (a b : Payment) : Bool :=
  optDateLeB a.dueDate b.dueDate

/-- Models the JS `new Date(string)` constructor on the inputs the
endpoint receives: an ISO year-month-day string parses, anything else is
an invalid date (`none`). -/
def parseDateJS (s : String) : Option Date :=
  match s.toList.splitOn '-' with
  | [ys, ms, ds] =>
    if ys ≠ [] ∧ ms ≠ [] ∧ ds ≠ [] ∧ (ys ++ ms ++ ds).all Char.isDigit then
      some ⟨natOfDigits ys, natOfDigits ms, natOfDigits ds⟩
    else none
  | _ => none

/-- `dueDate BETWEEN ? AND ?`; false whenever any side is NULL or an
invalid date. -/
def dueBetween (pa pe : Option Date) (p : Payment) : Bool :=
  match pa with
  | none => false
  | some a =>
    match pe with
    | none => false
    | some b =>
      match p.dueDate with
      | none => false
      | some d => dateLeB a d && dateLeB d b

/-- The `dueDate` part of the where clause: present only when both bounds
were supplied. -/
def duePredF (startDate endDate : Option String) : Payment → Bool :=
  match startDate, endDate with
  | some s, some e => dueBetween (parseDateJS s) (parseDateJS e)
  | _, _ => fun _ => true

/-- The `status` part of the where clause. -/
def statusPredF (paymentStatus : Option String) : Payment → Bool :=
  match paymentStatus with
  | some st => fun p => p.status == st
  | none => fun _ => true

/-- The include-level customer where clause (name and brand, iLike). -/
def custPredF (customerName carBrand : Option String) (c : Customer) : Bool :=
  (match customerName with
   | some n => sqlLike c.fullName (likePattern n)
   | none => true) &&
  (match carBrand with
   | some b =>
     match c.carBrand with
     | some cb => sqlLike cb (likePattern b)
     | none => false
   | none => true)

def filteredReport (db : DB)
    (startDate endDate customerName carBrand paymentStatus : Option String) :
    List (Payment × Customer) :=
  (sortByLe dueAscB
    (db.payments.filter
      (fun p => duePredF startDate endDate p
        && statusPredF paymentStatus p))).filterMap
    (fun p =>
      (db.customers.find?
        (fun c => c.id == p.customerId
          && custPredF customerName carBrand c)).map
        (fun c => (p, c)))

/-- The handler wraps the query result; no filter validation exists, so
the only outcome on any input is a success response. -/
def filteredHandler (db : DB)
    (startDate endDate customerName carBrand paymentStatus : Option String) :
    Except String (List (Payment × Customer)) :=
  Except.ok
    (filteredReport db startDate endDate customerName carBrand paymentStatus)

/-! ### GET /customer/:customerId/history (lines 267 to 289) -/

structure History where
  totalAmount : Int
  paidAmount : Int
  remainingAmount : Int
  payments : List Payment
  deriving DecidableEq, Repr

def customerHistory (db : DB) (cid : Nat) : History :=
  let ps := sortByLe dueAscB (db.payments.filter (fun p => p.customerId == cid))
  { totalAmount := ps.foldl (fun s p => s + p.amount) 0
    paidAmount := (ps.filter isPaidB).foldl (fun s p => s + p.amount) 0
    remainingAmount :=
      (ps.filter isPendingB).foldl (fun s p => s + p.amount) 0
    payments := ps }

/-! ### GET /dashboard (lines 294 to 385)

Each statistic is one ORM aggregate call; the fully paid count groups a
left join of customers with their pending payments by customer id and
keeps the groups whose pending count is zero, so it counts the distinct
customer ids without pending payments.  Every statistic passes through
the JS `|| 0` default. -/

structure DashboardStats where
  totalCustomers : Nat
  activeLeases : Nat
  fullyPaidCustomers : Nat
  monthlyPayments : Int
  totalInvested : Int
  totalCollected : Int
  totalUnpaid : Int
  overduePayments : Nat
  totalProfit : Int
  deriving DecidableEq, Repr

/-- The per customer profit formula of the dashboard:
`monthly_installment * lease_duration - leasing_amount`. -/
def customerProfit (c : Customer) : Int :=
  c.monthlyInstallment * (c.leaseDuration : Int) - c.leasingAmount

def dashboardStats (db : DB) (now : Date) : DashboardStats :=
  { totalCustomers := db.customers.length
    activeLeases := distinctCount
      ((db.customers.filter (fun c => hasPending db.payments c.id)).map
        (fun c => c.id))
    fullyPaidCustomers :=
      ((db.customers.map (fun c => c.id)).dedup.filter
        (fun cid => ((paymentsOf db.payments cid).filter isPendingB).length
          == 0)).length
    monthlyPayments :=
      jsNum (sqlSum (db.customers.map (fun c => c.monthlyInstallment)))
    totalInvested :=
      jsNum (sqlSum (db.customers.map (fun c => c.leasingAmount)))
    totalCollected :=
      jsNum (sqlSum ((db.payments.filter isPaidB).map (fun p => p.amount)))
    totalUnpaid :=
      jsNum (sqlSum ((db.payments.filter isPendingB).map (fun p => p.amount)))
    overduePayments := (db.payments.filter (isOverduePaymentB now)).length
    totalProfit :=
      jsOrInt (db.customers.foldl (fun s c => s + customerProfit c) 0) 0 }

/-! ### GET /export/customers/excel (lines 410 to 457) -/

inductive Cell where
  | str : String → Cell
  | int : Int → Cell
  | nat : Nat → Cell
  deriving DecidableEq, Repr

/-- JS template rendering of the nullable brand (`null` prints as text). -/
def brandText (c : Customer) : String :=
  match c.carBrand with
  | some b => b
  | none => "null"

/-- The combined car description cell
`${customer.carBrand} ${customer.carModel} (${customer.carYear})`. -/
def carDetails (c : Customer) : String :=
  brandText c ++ " " ++ c.carModel ++ " (" ++ toString c.carYear ++ ")"

/-- Models `toLocaleDateString` on the lease start date. -/
def fmtDate (d : Date) : String :=
  toString d.m ++ "/" ++ toString d.d ++ "/" ++ toString d.y

/-- Modelled from the spec: the customer model (the models file is not
part of the sources) optionally defines a calculateProfit method; per the
spec it computes installment times duration minus leasing amount when
available, and the export leaves the cell blank otherwise. -/
def profitCell (c : Customer) : Cell :=
  if c.hasCalculateProfit then Cell.int (customerProfit c) else Cell.str ""

def customerRowCells (c : Customer) : List Cell :=
  [Cell.nat c.id, Cell.str c.fullName, Cell.str c.phoneNumber,
   Cell.str (carDetails c), Cell.int c.carPurchaseCost,
   Cell.int c.leasingAmount, Cell.int c.monthlyInstallment,
   Cell.nat c.leaseDuration, Cell.str (fmtDate c.leaseStartDate),
   Cell.int c.totalPaid, profitCell c, Cell.str c.status]

def excelHeader : List Cell :=
  [Cell.str "ID", Cell.str "Full Name", Cell.str "Phone Number",
   Cell.str "Car Details", Cell.str "Purchase Cost",
   Cell.str "Leasing Amount", Cell.str "Monthly Payment",
   Cell.str "Lease Duration", Cell.str "Start Date", Cell.str "Total Paid",
   Cell.str "Profit", Cell.str "Status"]

structure ExcelDoc where
  rows : List (List Cell)
  headerBold : Bool
  deriving DecidableEq, Repr

/-- The worksheet: the column header row, then one row per customer,
customers ordered by creation date descending; row one is bold. -/
def excelExport (customers : List Customer) : ExcelDoc :=
  { rows := excelHeader :: (sortByLe creationDescB customers).map customerRowCells
    headerBold := true }

/-! ### GET /export/payments/pdf (lines 462 to 530)

Only the trailing summary block carries arithmetic; its counts go by the
stored status string alone. -/

structure PdfSummary where
  totalPayments : Nat
  paidPayments : Nat
  overduePayments : Nat
  pendingPayments : Nat
  totalAmount : Int
  paidAmount : Int
  remainingAmount : Int
  deriving DecidableEq, Repr

def pdfSummary (db : DB) : PdfSummary :=
  let ps := sortByLe dueAscB db.payments
  let total := ps.foldl (fun s p => s + p.amount) 0
  let paid := (ps.filter isPaidB).foldl (fun s p => s + p.amount) 0
  { totalPayments := ps.length
    paidPayments := (ps.filter isPaidB).length
    overduePayments := (ps.filter (fun p => p.status == "overdue")).length
    pendingPayments := (ps.filter isPendingB).length
    totalAmount := total
    paidAmount := paid
    remainingAmount := total - paid }

/-! ### Sample data used by concrete counterexamples and witnesses -/

def dNow : Date := ⟨2024, 5, 1⟩

def custA : Customer :=
  ⟨1, "abc", "123", some "Toyota", "Corolla", 2020, 500, 100, 10, 12,
    ⟨2024, 1, 1⟩, ⟨2024, 1, 1⟩, "active", 0, true⟩

def custB : Customer :=
  ⟨2, "Dana", "555-23-99", some "Honda", "Civic", 2021, 700, 200, 20, 6,
    ⟨2024, 2, 1⟩, ⟨2024, 2, 1⟩, "active", 0, false⟩

/-- A payment whose stored status is the literal text overdue. -/
def payStoredOverdue : Payment :=
  ⟨1, 7, 100, some ⟨2024, 1, 1⟩, none, "overdue"⟩

/-- A pending payment whose due date has already passed. -/
def payPendingLate : Payment :=
  ⟨2, 1, 50, some ⟨2024, 2, 1⟩, none, "pending"⟩

/-- A paid payment. -/
def payPaid : Payment :=
  ⟨3, 1, 70, some ⟨2024, 3, 1⟩, some ⟨2024, 3, 2⟩, "paid"⟩

def dbEmpty : DB := ⟨[], []⟩

def dbOne : DB := ⟨[custA], []⟩

def dbTwo : DB := ⟨[custA, custB], [payPendingLate, payPaid]⟩

/-- The same rows as dbTwo, both tables in reversed order. -/
def dbTwoRev : DB := ⟨[custB, custA], [payPaid, payPendingLate]⟩

/-! ### Date order lemmas -/

theorem dateLtB_iff (a b : Date) :
    dateLtB a b = true ↔
      (a.y < b.y ∨ (a.y = b.y ∧ (a.m < b.m ∨ (a.m = b.m ∧ a.d < b.d)))) := by
  simp only [dateLtB, Bool.or_eq_true, Bool.and_eq_true, Nat.blt_eq,
    beq_iff_eq]

theorem dateLeB_iff (a b : Date) :
    dateLeB a b = true ↔
      (a.y < b.y ∨ (a.y = b.y ∧ (a.m < b.m ∨ (a.m = b.m ∧ a.d ≤ b.d)))) := by
  simp only [dateLeB, Bool.or_eq_true, Bool.and_eq_true, Nat.blt_eq,
    Nat.ble_eq, beq_iff_eq]

theorem dateLeB_total (a b : Date) :
    dateLeB a b = true ∨ dateLeB b a = true := by
  rw [dateLeB_iff, dateLeB_iff]
  omega

theorem dateLeB_trans {a b c : Date} (h₁ : dateLeB a b = true)
    (h₂ : dateLeB b c = true) : dateLeB a c = true := by
  rw [dateLeB_iff] at h₁ h₂ ⊢
  omega

theorem optDateLeB_total (a b : Option Date) :
    optDateLeB a b = true ∨ optDateLeB b a = true := by
  match a, b with
  | none, _ => exact Or.inl rfl
  | some _, none => exact Or.inr rfl
  | some x, some y => exact dateLeB_total x y

theorem optDateLeB_trans {a b c : Option Date} (h₁ : optDateLeB a b = true)
    (h₂ : optDateLeB b c = true) : optDateLeB a c = true := by
  match a, b, c with
  | none, _, _ => rfl
  | some _, none, _ => exact absurd h₁ (by simp [optDateLeB])
  | some _, some _, none => exact absurd h₂ (by simp [optDateLeB])
  | some x, some y, some z =>
    exact dateLeB_trans h₁ h₂

/-! ### Insertion sort lemmas -/

theorem insertLe_perm {α : Type} (le : α → α → Bool) (a : α) (l : List α) :
    List.Perm (insertLe le a l) (a :: l) := by
  induction l with
  | nil => simp [insertLe]
  | cons b bs ih =>
    by_cases h : le a b = true
    · simp [insertLe, h]
    · simp only [insertLe, if_neg h]
      exact List.Perm.trans (List.Perm.cons b ih) (List.Perm.swap a b bs)

theorem sortByLe_perm {α : Type} (le : α → α → Bool) (l : List α) :
    List.Perm (sortByLe le l) l := by
  induction l with
  | nil => simp [sortByLe]
  | cons a as ih =>
    simp only [sortByLe]
    exact List.Perm.trans (insertLe_perm le a (sortByLe le as))
      (List.Perm.cons a ih)

theorem insertLe_sorted {α : Type} {le : α → α → Bool}
    (htot : ∀ x y, le x y = true ∨ le y x = true)
    (htr : ∀ x y z, le x y = true → le y z = true → le x z = true)
    (a : α) {l : List α} (hl : List.Sorted (fun x y => le x y = true) l) :
    List.Sorted (fun x y => le x y = true) (insertLe le a l) := by
  induction l with
  | nil => simp [insertLe]
  | cons b bs ih =>
    rw [List.sorted_cons] at hl
    by_cases h : le a b = true
    · simp only [insertLe, if_pos h]
      rw [List.sorted_cons]
      refine ⟨fun x hx => ?_, List.sorted_cons.mpr hl⟩
      rcases List.mem_cons.mp hx with hxb | hx'
      · rw [hxb]
        exact h
      · exact htr a b x h (hl.1 x hx')
    · simp only [insertLe, if_neg h]
      rw [List.sorted_cons]
      refine ⟨fun x hx => ?_, ih hl.2⟩
      rcases List.mem_cons.mp ((insertLe_perm le a bs).mem_iff.mp hx)
        with hxa | hx'
      · rw [hxa]
        rcases htot a b with h' | h'
        · exact absurd h' h
        · exact h'
      · exact hl.1 x hx'

theorem sortByLe_sorted {α : Type} {le : α → α → Bool}
    (htot : ∀ x y, le x y = true ∨ le y x = true)
    (htr : ∀ x y z, le x y = true → le y z = true → le x z = true)
    (l : List α) :
    List.Sorted (fun x y => le x y = true) (sortByLe le l) := by
  induction l with
  | nil => simp [sortByLe]
  | cons a as ih => exact insertLe_sorted htot htr a ih

/-! ### Generic list lemmas -/

theorem foldlAdd {α : Type} (f : α → Int) (l : List α) (i : Int) :
    l.foldl (fun s a => s + f a) i = i + (l.map f).sum := by
  induction l generalizing i with
  | nil => simp
  | cons a as ih =>
    simp only [List.foldl_cons, List.map_cons, List.sum_cons, ih (i + f a)]
    ring

theorem sumIfEqFilter {α : Type} (p : α → Bool) (g : α → Int) (l : List α) :
    (l.map (fun a => if p a then g a else 0)).sum
      = ((l.filter p).map g).sum := by
  induction l with
  | nil => simp
  | cons a as ih =>
    by_cases h : p a = true
    · simp [h, ih]
    · simp only [Bool.not_eq_true] at h
      simp [h, ih]

theorem lengthFilterSplit {α : Type} (p : α → Bool) (l : List α) :
    (l.filter p).length + (l.filter (fun a => !p a)).length = l.length := by
  induction l with
  | nil => simp
  | cons a as ih =>
    by_cases h : p a = true
    · simp [List.filter_cons, h]
      omega
    · simp only [Bool.not_eq_true] at h
      simp [List.filter_cons, h]
      omega

theorem dedupLenEqOfMemIff {α : Type} [DecidableEq α] {l₁ l₂ : List α}
    (h : ∀ x, x ∈ l₁ ↔ x ∈ l₂) : l₁.dedup.length = l₂.dedup.length := by
  rw [← List.card_toFinset, ← List.card_toFinset]
  congr 1
  ext x
  simp only [List.mem_toFinset]
  exact h x

theorem dedupFilterLen {α : Type} [DecidableEq α] (P : α → Bool)
    (l : List α) :
    (l.filter P).dedup.length = (l.dedup.filter P).length := by
  have h₁ : (l.filter P).dedup.length = (l.filter P).toFinset.card :=
    (List.card_toFinset _).symm
  have hnd : (l.dedup.filter P).Nodup := (List.nodup_dedup l).filter P
  have h₂ : (l.dedup.filter P).length = (l.dedup.filter P).toFinset.card := by
    rw [List.card_toFinset, hnd.dedup]
  rw [h₁, h₂]
  congr 1
  ext x
  simp [List.mem_toFinset, List.mem_filter, List.mem_dedup]

/-! ### Join row lemmas -/

theorem custRows_ne_nil (ps : List Payment) (c : Customer) :
    custRows ps c ≠ [] := by
  unfold custRows
  by_cases h : paymentsOf ps c.id = []
  · simp [h]
  · simp only [if_neg h]
    intro hmap
    exact h (List.map_eq_nil_iff.mp hmap)

theorem fst_of_mem_custRows {ps : List Payment} {c : Customer}
    {r : Customer × Option Payment} (h : r ∈ custRows ps c) : r.1 = c := by
  unfold custRows at h
  by_cases hp : paymentsOf ps c.id = []
  · simp [hp] at h
    rw [h]
  · simp only [if_neg hp, List.mem_map] at h
    obtain ⟨p, _, hpr⟩ := h
    rw [← hpr]

theorem leftJoin_cons (cs : List Customer) (ps : List Payment)
    (c : Customer) :
    leftJoin ⟨c :: cs, ps⟩ = custRows ps c ++ leftJoin ⟨cs, ps⟩ := rfl

theorem mem_id_leftJoin (db : DB) (x : Nat) :
    x ∈ (leftJoin db).map (fun r => r.1.id)
      ↔ x ∈ db.customers.map (fun c => c.id) := by
  obtain ⟨cs, ps⟩ := db
  induction cs with
  | nil => simp [leftJoin, concatAll]
  | cons c cs ih =>
    rw [leftJoin_cons]
    simp only [List.map_append, List.mem_append, List.map_cons,
      List.mem_cons]
    constructor
    · intro h
      rcases h with h | h
      · rcases List.mem_map.mp h with ⟨r, hr, hrx⟩
        left
        rw [← hrx, fst_of_mem_custRows hr]
      · right
        exact ih.mp h
    · intro h
      rcases h with h | h
      · left
        obtain ⟨r, hr⟩ := List.exists_mem_of_ne_nil _ (custRows_ne_nil ps c)
        exact List.mem_map.mpr ⟨r, hr, by rw [fst_of_mem_custRows hr, h]⟩
      · right
        exact ih.mpr h

theorem sum_leftJoin (db : DB) (f : Customer × Option Payment → Int) :
    ((leftJoin db).map f).sum
      = (db.customers.map
          (fun c => ((custRows db.payments c).map f).sum)).sum := by
  obtain ⟨cs, ps⟩ := db
  induction cs with
  | nil => simp [leftJoin, concatAll]
  | cons c cs ih =>
    rw [leftJoin_cons]
    simp only [List.map_append, List.sum_append, List.map_cons,
      List.sum_cons]
    rw [ih]

theorem leftJoin_eq_nil_iff (db : DB) :
    leftJoin db = [] ↔ db.customers = [] := by
  obtain ⟨cs, ps⟩ := db
  cases cs with
  | nil => simp [leftJoin, concatAll]
  | cons c cs =>
    simp only [leftJoin_cons]
    constructor
    · intro h
      rcases List.append_eq_nil.mp h with ⟨h₁, _⟩
      exact absurd h₁ (custRows_ne_nil ps c)
    · intro h
      exact absurd h (by simp)

/-! ### Permutation invariance of the summary sums -/

theorem paymentsOf_perm {ps₁ ps₂ : List Payment}
    (h : List.Perm ps₁ ps₂) (cid : Nat) :
    List.Perm (paymentsOf ps₁ cid) (paymentsOf ps₂ cid) :=
  List.Perm.filter _ h

theorem custRows_perm {ps₁ ps₂ : List Payment}
    (h : List.Perm ps₁ ps₂) (c : Customer) :
    List.Perm (custRows ps₁ c) (custRows ps₂ c) := by
  unfold custRows
  by_cases h₁ : paymentsOf ps₁ c.id = []
  · have h₂ : paymentsOf ps₂ c.id = [] := by
      have := (paymentsOf_perm h c.id).length_eq
      rw [h₁] at this
      exact List.length_eq_zero.mp this.symm
    simp [h₁, h₂]
  · have h₂ : paymentsOf ps₂ c.id ≠ [] := by
      intro hc
      have := (paymentsOf_perm h c.id).length_eq
      rw [hc] at this
      exact h₁ (List.length_eq_zero.mp this)
    simp only [if_neg h₁, if_neg h₂]
    exact List.Perm.map _ (paymentsOf_perm h c.id)

theorem sqlSum_congr {xs ys : List Int} (hnil : xs = [] ↔ ys = [])
    (hsum : xs.sum = ys.sum) : sqlSum xs = sqlSum ys := by
  cases xs with
  | nil => rw [hnil.mp rfl]
  | cons a as =>
    cases ys with
    | nil => exact absurd (hnil.mpr rfl) (by simp)
    | cons b bs =>
      simp only [sqlSum]
      rw [hsum]

theorem summary_sums_perm {db₁ db₂ : DB}
    (hc : List.Perm db₁.customers db₂.customers)
    (hp : List.Perm db₁.payments db₂.payments)
    (f : Customer × Option Payment → Int) :
    sqlSum ((leftJoin db₁).map f) = sqlSum ((leftJoin db₂).map f) := by
  apply sqlSum_congr
  · constructor
    · intro h
      rw [List.map_eq_nil_iff] at h ⊢
      rw [leftJoin_eq_nil_iff] at h ⊢
      rw [List.eq_nil_iff_forall_not_mem] at h ⊢
      intro c hc'
      exact h c (hc.mem_iff.mpr hc')
    · intro h
      rw [List.map_eq_nil_iff] at h ⊢
      rw [leftJoin_eq_nil_iff] at h ⊢
      rw [List.eq_nil_iff_forall_not_mem] at h ⊢
      intro c hc'
      exact h c (hc.mem_iff.mp hc')
  · rw [sum_leftJoin, sum_leftJoin]
    have hpt : ∀ c : Customer,
        ((custRows db₁.payments c).map f).sum
          = ((custRows db₂.payments c).map f).sum := by
      intro c
      exact (List.Perm.map f (custRows_perm hp c)).sum_eq
    calc (db₁.customers.map
            (fun c => ((custRows db₁.payments c).map f).sum)).sum
        = (db₁.customers.map
            (fun c => ((custRows db₂.payments c).map f).sum)).sum := by
          rw [List.map_congr_left (fun c _ => hpt c)]
      _ = (db₂.customers.map
            (fun c => ((custRows db₂.payments c).map f).sum)).sum :=
          (List.Perm.map _ hc).sum_eq

/-! ### LIKE versus substring -/

theorem tails_any_isEmpty (t : List Char) :
    t.tails.any (fun x => x.isEmpty) = true := by
  induction t with
  | nil => simp
  | cons c cs ih => simp [List.tails, ih]

theorem likeMatch_pct (ps cs : List Char) :
    likeMatch ('%' :: ps) cs = cs.tails.any (fun t => likeMatch ps t) := rfl

theorem likeMatch_lit {s : List Char}
    (hs : s.all (fun c => !(c == '%' || c == '_')) = true) (t : List Char) :
    likeMatch (s ++ ['%']) t = startsLower s t := by
  induction s generalizing t with
  | nil =>
    show likeMatch ['%'] t = true
    rw [likeMatch_pct]
    have h : (fun x => likeMatch [] x) = (fun x : List Char => x.isEmpty) := by
      funext x
      rfl
    rw [h]
    exact tails_any_isEmpty t
  | cons a as ih =>
    rw [List.all_cons, Bool.and_eq_true] at hs
    have ha : a ≠ '%' ∧ a ≠ '_' := by
      constructor <;> intro hc <;> rw [hc] at hs <;> simp at hs
    cases t with
    | nil =>
      simp only [List.cons_append, likeMatch, if_neg ha.1, startsLower]
    | cons c cs =>
      simp only [List.cons_append, likeMatch, if_neg ha.1, if_neg ha.2,
        startsLower, List.append_eq]
      rw [ih hs.2]

theorem likeMatch_wrap {s : List Char}
    (hs : s.all (fun c => !(c == '%' || c == '_')) = true) (cs : List Char) :
    likeMatch ('%' :: (s ++ ['%'])) cs = ciContainsL s cs := by
  rw [likeMatch_pct]
  unfold ciContainsL
  have h : (fun t => likeMatch (s ++ ['%']) t)
      = (fun t => startsLower s t) := by
    funext t
    exact likeMatch_lit hs t
  rw [h]

theorem sqlLike_likePattern {s : String} (hs : noWildcards s = true)
    (t : String) : sqlLike t (likePattern s) = ciContains t s := by
  unfold sqlLike likePattern ciContains
  have hl : ("%" ++ s ++ "%").toList = '%' :: (s.toList ++ ['%']) := by
    show ("%" ++ s ++ "%").data = '%' :: (s.data ++ ['%'])
    rw [String.data_append, String.data_append]
    rfl
  rw [hl]
  exact likeMatch_wrap hs t.toList

/-! ### Membership in the customer report -/

theorem mem_customersReport (db : DB) (now : Date)
    (status search brand : Option String) (cid : Nat) :
    cid ∈ (customersReport db now status search brand).map
        (fun r => r.customer.id)
      ↔ ∃ c ∈ customersBase db now status search brand, c.id = cid := by
  unfold customersReport
  set base := customersBase db now status search brand with hbase
  simp only [List.map_map]
  have hrow : ∀ c : Customer,
      ((fun r => r.customer.id) ∘ rowFor db.payments) c = c.id := by
    intro c
    rfl
  rw [List.map_congr_left (fun c _ => hrow c)]
  rw [(List.Perm.map _ (sortByLe_perm creationDescB _)).mem_iff]
  constructor
  · intro h
    rcases List.mem_map.mp h with ⟨c, hc, hcid⟩
    rcases List.mem_filterMap.mp hc with ⟨i, _, hfind⟩
    refine ⟨c, List.mem_of_find?_eq_some hfind, hcid⟩
  · rintro ⟨c, hc, hcid⟩
    have hid : cid ∈ (base.map (fun c => c.id)).dedup := by
      rw [List.mem_dedup]
      exact List.mem_map.mpr ⟨c, hc, hcid⟩
    have hex : ∃ x ∈ base, (fun c => c.id == cid) x = true :=
      ⟨c, hc, by simp [hcid]⟩
    have hsome : (base.find? (fun c => c.id == cid)).isSome = true :=
      List.find?_isSome.mpr hex
    rcases Option.isSome_iff_exists.mp hsome with ⟨c', hc'⟩
    apply List.mem_map.mpr
    refine ⟨c', List.mem_filterMap.mpr ⟨cid, hid, hc'⟩, ?_⟩
    have := List.find?_some hc'
    simpa using this

/-! ### Claim theorems -/

/-- Claim C1: the summary endpoint computes total profit as collected
minus invested (null sums defaulting to 0), independent of the ordering
of the customer and payment rows, while the dashboard endpoint computes
total profit as the sum over customers of installment times duration
minus leasing amount; the two metrics disagree on some datasets. -/
theorem profit_two_ways :
    (∀ (db : DB) (now : Date),
      (summaryQuery db now).total_profit
        = jsNum (summaryQuery db now).total_collected
          - jsNum (summaryQuery db now).total_invested)
  ∧ (∀ (db₁ db₂ : DB) (now : Date),
      List.Perm db₁.customers db₂.customers →
      List.Perm db₁.payments db₂.payments →
      (summaryQuery db₁ now).total_profit
        = (summaryQuery db₂ now).total_profit)
  ∧ (∀ (db : DB) (now : Date),
      (dashboardStats db now).totalProfit
        = (db.customers.map customerProfit).sum)
  ∧ (∃ (db : DB) (now : Date),
      (summaryQuery db now).total_profit
        ≠ (dashboardStats db now).totalProfit) := by
  refine ⟨fun db now => rfl, ?_, ?_, ⟨dbOne, dNow, by decide⟩⟩
  · intro db₁ db₂ now h₁ h₂
    show jsNum (sqlSum ((leftJoin db₁).map paidCaseAmount))
        - jsNum (sqlSum ((leftJoin db₁).map (fun r => r.1.leasingAmount)))
      = jsNum (sqlSum ((leftJoin db₂).map paidCaseAmount))
        - jsNum (sqlSum ((leftJoin db₂).map (fun r => r.1.leasingAmount)))
    rw [summary_sums_perm h₁ h₂ paidCaseAmount,
      summary_sums_perm h₁ h₂ (fun r => r.1.leasingAmount)]
  · intro db now
    show jsOrInt (db.customers.foldl (fun s c => s + customerProfit c) 0) 0
      = (db.customers.map customerProfit).sum
    rw [foldlAdd customerProfit db.customers 0]
    unfold jsOrInt
    split <;> omega

/-- Claim C1 witness: the summary profit of a concrete dataset does not
change when both tables are permuted. -/
theorem profit_two_ways_witness :
    (summaryQuery dbTwo dNow).total_profit
      = (summaryQuery dbTwoRev dNow).total_profit :=
  profit_two_ways.2.1 dbTwo dbTwoRev dNow (by decide) (by decide)

/-- Claim C2 counterexample: on the empty dataset the summary leaves the
three SQL sums as NULL (none), not 0 — the handler only defaults the two
sums it feeds into total_profit. -/
theorem summary_empty_nulls :
    (summaryQuery dbEmpty dNow).total_invested = none
  ∧ (summaryQuery dbEmpty dNow).total_collected = none
  ∧ (summaryQuery dbEmpty dNow).total_pending = none
  ∧ (summaryQuery dbEmpty dNow).total_invested ≠ some 0 := by
  refine ⟨rfl, rfl, rfl, by decide⟩

/-- Claim C2 as amended: on the empty dataset the summary returns 0 for
total_customers, overdue_customers, completed_customers and total_profit,
but NULL (not 0) for total_invested, total_collected and total_pending. -/
theorem summary_empty_amended (now : Date) :
    (summaryQuery dbEmpty now).total_customers = 0
  ∧ (summaryQuery dbEmpty now).overdue_customers = 0
  ∧ (summaryQuery dbEmpty now).completed_customers = 0
  ∧ (summaryQuery dbEmpty now).total_profit = 0
  ∧ (summaryQuery dbEmpty now).total_invested = none
  ∧ (summaryQuery dbEmpty now).total_collected = none
  ∧ (summaryQuery dbEmpty now).total_pending = none :=
  ⟨rfl, rfl, rfl, rfl, rfl, rfl, rfl⟩

theorem statusCondB_overdue (db : DB) (now : Date) (c : Customer) :
    statusCondB db now (some "overdue") c
      = hasOverduePending db.payments now c.id := rfl

theorem statusCondB_completed (db : DB) (now : Date) (c : Customer) :
    statusCondB db now (some "completed") c
      = !hasPending db.payments c.id := rfl

/-- Claim C4: the completed and overdue predicates of the customer report
are not complements: a customer with no payment rows at all is returned by
the status=completed report and excluded from the status=overdue one. -/
theorem completed_overdue_not_complements :
    ∀ (db : DB) (now : Date) (c : Customer), c ∈ db.customers →
      paymentsOf db.payments c.id = [] →
      c.id ∈ (customersReport db now (some "completed") none none).map
          (fun r => r.customer.id)
      ∧ c.id ∉ (customersReport db now (some "overdue") none none).map
          (fun r => r.customer.id) := by
  intro db now c hc hnone
  constructor
  · apply (mem_customersReport db now (some "completed") none none c.id).mpr
    refine ⟨c, ?_, rfl⟩
    unfold customersBase
    apply List.mem_filter.mpr
    refine ⟨hc, ?_⟩
    rw [Bool.and_eq_true, Bool.and_eq_true, statusCondB_completed]
    refine ⟨⟨?_, rfl⟩, rfl⟩
    unfold hasPending
    rw [hnone]
    rfl
  · intro hmem
    rcases (mem_customersReport db now (some "overdue") none none c.id).mp
      hmem with ⟨c', hc', hcid⟩
    unfold customersBase at hc'
    have hcond := (List.mem_filter.mp hc').2
    rw [Bool.and_eq_true, Bool.and_eq_true, statusCondB_overdue] at hcond
    have hov := hcond.1.1
    unfold hasOverduePending at hov
    rw [hcid, hnone] at hov
    exact absurd hov (by simp)

/-- Claim C4 witness: a concrete customer with no payments appears in the
completed report and not in the overdue report. -/
theorem completed_overdue_not_complements_witness :
    custA.id ∈ (customersReport dbOne dNow (some "completed") none none).map
        (fun r => r.customer.id)
    ∧ custA.id ∉ (customersReport dbOne dNow (some "overdue") none none).map
        (fun r => r.customer.id) :=
  completed_overdue_not_complements dbOne dNow custA (by decide) (by decide)

/-- Claim C5: the filtered report performs no validation of the date
filters; when the start date cannot be parsed, the invalid date satisfies
no comparison, so the handler silently succeeds with an empty result
instead of failing with an InvalidFilter condition. -/
theorem filtered_malformed_silently_empty :
    ∀ (db : DB) (s e : String) (n b st : Option String),
      parseDateJS s = none →
      filteredHandler db (some s) (some e) n b st = Except.ok [] := by
  intro db s e n b st h
  have hd : ∀ p : Payment, duePredF (some s) (some e) p = false := by
    intro p
    show dueBetween (parseDateJS s) (parseDateJS e) p = false
    rw [h]
    rfl
  have hfilter : db.payments.filter
      (fun p => duePredF (some s) (some e) p && statusPredF st p) = [] :=
    List.filter_eq_nil_iff.mpr (fun p _ => by rw [hd p]; simp)
  unfold filteredHandler filteredReport
  rw [hfilter]
  rfl

/-- Claim C5 witness: a malformed start date on a dataset with a matching
payment yields a success response carrying an empty list. -/
theorem filtered_malformed_silently_empty_witness :
    parseDateJS "garbage" = none
    ∧ filteredHandler dbTwo (some "garbage") (some "2024-01-01")
        none none none = Except.ok [] :=
  ⟨by decide,
    filtered_malformed_silently_empty dbTwo "garbage" "2024-01-01"
      none none none (by decide)⟩

/-- Claim C9: the spreadsheet export has one header row (12 named
columns, bold) plus exactly one data row per customer, every row has 12
cells, the combined car description cell is the brand, model and
parenthesised year, and the profit cell applies the customer profit
formula when the customer has one, else stays blank. -/
theorem excel_export_shape :
    (∀ cs : List Customer, (excelExport cs).rows.length = cs.length + 1)
  ∧ (∀ cs : List Customer, ∀ r ∈ (excelExport cs).rows, r.length = 12)
  ∧ (∀ cs : List Customer, (excelExport cs).rows.head? = some excelHeader)
  ∧ (∀ cs : List Customer, (excelExport cs).headerBold = true)
  ∧ (∀ cs : List Customer, ∀ c ∈ cs,
      customerRowCells c ∈ (excelExport cs).rows)
  ∧ (∀ c : Customer,
      (customerRowCells c).get? 3 = some (Cell.str (carDetails c)))
  ∧ (∀ c : Customer,
      carDetails c = brandText c ++ " " ++ c.carModel ++ " ("
        ++ toString c.carYear ++ ")")
  ∧ (∀ c : Customer,
      (customerRowCells c).get? 10
        = some (if c.hasCalculateProfit then Cell.int (customerProfit c)
            else Cell.str "")) := by
  refine ⟨?_, ?_, fun cs => rfl, fun cs => rfl, ?_, fun c => rfl,
    fun c => rfl, fun c => rfl⟩
  · intro cs
    show (excelHeader :: (sortByLe creationDescB cs).map customerRowCells).length
      = cs.length + 1
    rw [List.length_cons, List.length_map,
      (sortByLe_perm creationDescB cs).length_eq]
  · intro cs r hr
    rcases List.mem_cons.mp hr with hh | hm
    · rw [hh]
      rfl
    · rcases List.mem_map.mp hm with ⟨c, _, hcr⟩
      rw [← hcr]
      rfl
  · intro cs c hc
    apply List.mem_cons.mpr
    right
    exact List.mem_map.mpr
      ⟨c, (sortByLe_perm creationDescB cs).mem_iff.mpr hc, rfl⟩

/-- Claim C9 witness: the data row of a concrete customer appears among
the rows exported for a one-customer table. -/
theorem excel_export_shape_witness :
    customerRowCells custA ∈ (excelExport [custA]).rows :=
  excel_export_shape.2.2.2.2.1 [custA] custA (by decide)

/-- Claim C10: the PDF summary block counts paid, overdue and pending
payments by the stored status text alone; a pending payment whose due
date has passed is counted among the pending ones and not among the
overdue ones, and the PDF overdue count can differ from the derived
overdue predicate every other report uses. -/
theorem pdf_counts_by_stored_status :
    (∀ db : DB,
      (pdfSummary db).overduePayments
        = (db.payments.filter (fun p => p.status == "overdue")).length
      ∧ (pdfSummary db).pendingPayments
        = (db.payments.filter isPendingB).length
      ∧ (pdfSummary db).paidPayments
        = (db.payments.filter isPaidB).length)
  ∧ (∀ (db : DB) (now : Date) (p : Payment), p ∈ db.payments →
      isOverduePaymentB now p = true →
      p ∈ db.payments.filter isPendingB
      ∧ p ∉ db.payments.filter (fun q => q.status == "overdue"))
  ∧ (∃ (db : DB) (now : Date),
      (pdfSummary db).overduePayments
        ≠ (db.payments.filter (isOverduePaymentB now)).length) := by
  refine ⟨?_, ?_, ⟨dbTwo, dNow, by decide⟩⟩
  · intro db
    refine ⟨?_, ?_, ?_⟩
    · show ((sortByLe dueAscB db.payments).filter
          (fun p => p.status == "overdue")).length = _
      exact ((sortByLe_perm dueAscB db.payments).filter _).length_eq
    · show ((sortByLe dueAscB db.payments).filter isPendingB).length = _
      exact ((sortByLe_perm dueAscB db.payments).filter _).length_eq
    · show ((sortByLe dueAscB db.payments).filter isPaidB).length = _
      exact ((sortByLe_perm dueAscB db.payments).filter _).length_eq
  · intro db now p hp hov
    unfold isOverduePaymentB at hov
    rw [Bool.and_eq_true] at hov
    have hpend := hov.1
    constructor
    · exact List.mem_filter.mpr ⟨hp, hpend⟩
    · intro hmem
      have hovst := (List.mem_filter.mp hmem).2
      unfold isPendingB at hpend
      rw [beq_iff_eq] at hpend hovst
      rw [hpend] at hovst
      exact absurd hovst (by decide)

/-- Claim C10 witness: a concrete pending payment past its due date is
counted among the pending payments of the PDF summary and not among the
overdue ones. -/
theorem pdf_counts_by_stored_status_witness :
    payPendingLate ∈ dbTwo.payments.filter isPendingB
    ∧ payPendingLate ∉ dbTwo.payments.filter
        (fun q => q.status == "overdue") :=
  pdf_counts_by_stored_status.2.1 dbTwo dNow payPendingLate
    (by decide) (by decide)

/-! ### Helpers for the fully paid versus completed comparison -/

theorem notAny_eq {α : Type} (l : List α) (p : α → Bool) :
    (!l.any p) = ((l.filter p).length == 0) := by
  by_cases h : l.any p = true
  · rw [h]
    rcases List.any_eq_true.mp h with ⟨x, hx, hpx⟩
    have hmem : x ∈ l.filter p := List.mem_filter.mpr ⟨hx, hpx⟩
    cases hf : l.filter p with
    | nil =>
      rw [hf] at hmem
      exact absurd hmem (by simp)
    | cons y ys => simp [hf]
  · rw [Bool.not_eq_true] at h
    rw [h]
    have hf : l.filter p = [] := by
      apply List.filter_eq_nil_iff.mpr
      intro a ha hpa
      exact absurd (List.any_eq_true.mpr ⟨a, ha, hpa⟩) (by rw [h]; simp)
    rw [hf]
    rfl

theorem summary_completed_repr (db : DB) (now : Date) :
    (summaryQuery db now).completed_customers
      = (((leftJoin db).map (fun r => r.1.id)).filter
          (fun cid => !hasPending db.payments cid)).dedup.length := by
  show (((leftJoin db).filter
      (fun r => !hasPending db.payments r.1.id)).map
        (fun r => r.1.id)).dedup.length = _
  congr 1
  rw [List.filter_map]
  rfl

theorem dash_fullyPaid_repr (db : DB) (now : Date) :
    (dashboardStats db now).fullyPaidCustomers
      = ((db.customers.map (fun c => c.id)).dedup.filter
          (fun cid => !hasPending db.payments cid)).length := by
  show ((db.customers.map (fun c => c.id)).dedup.filter
      (fun cid => ((paymentsOf db.payments cid).filter isPendingB).length
        == 0)).length = _
  congr 1
  apply List.filter_congr
  intro x _
  exact (notAny_eq (paymentsOf db.payments x) isPendingB).symm

/-- Claim C3: the dashboard fullyPaidCustomers statistic counts the
customers with zero pending payments and agrees with the summary
completed_customers metric on every dataset. -/
theorem fullyPaid_eq_completed :
    (∀ (db : DB) (now : Date),
      (dashboardStats db now).fullyPaidCustomers
        = (summaryQuery db now).completed_customers)
  ∧ (∀ (db : DB) (now : Date),
      (db.customers.map (fun c => c.id)).Nodup →
      (dashboardStats db now).fullyPaidCustomers
        = (db.customers.filter
            (fun c => !hasPending db.payments c.id)).length) := by
  constructor
  · intro db now
    rw [dash_fullyPaid_repr, summary_completed_repr]
    rw [← dedupFilterLen]
    apply dedupLenEqOfMemIff
    intro x
    rw [List.mem_filter, List.mem_filter]
    constructor
    · rintro ⟨hm, hp⟩
      exact ⟨(mem_id_leftJoin db x).mpr hm, hp⟩
    · rintro ⟨hm, hp⟩
      exact ⟨(mem_id_leftJoin db x).mp hm, hp⟩
  · intro db now hnodup
    rw [dash_fullyPaid_repr, hnodup.dedup]
    rw [List.filter_map]
    rw [List.length_map]
    rfl

/-- Claim C3 witness: on a concrete two customer dataset with distinct
ids the statistic equals the count of customers without pending
payments. -/
theorem fullyPaid_eq_completed_witness :
    (dashboardStats dbTwo dNow).fullyPaidCustomers
      = (dbTwo.customers.filter
          (fun c => !hasPending dbTwo.payments c.id)).length :=
  fullyPaid_eq_completed.2 dbTwo dNow (by decide)

/-! ### Helpers for the history partition -/

theorem paidPendingSplit (l : List Payment)
    (h : ∀ p ∈ l, p.status = "paid" ∨ p.status = "pending") :
    ((l.filter isPaidB).map (fun p => p.amount)).sum
      + ((l.filter isPendingB).map (fun p => p.amount)).sum
      = (l.map (fun p => p.amount)).sum := by
  induction l with
  | nil => simp
  | cons a as ih =>
    have ih' := ih (fun p hp => h p (List.mem_cons.mpr (Or.inr hp)))
    rcases h a (List.mem_cons.mpr (Or.inl rfl)) with ha | ha
    · have h1 : isPaidB a = true := by simp [isPaidB, ha]
      have h2 : isPendingB a = false := by simp [isPendingB, ha]
      simp [List.filter_cons, h1, h2]
      omega
    · have h1 : isPaidB a = false := by simp [isPaidB, ha]
      have h2 : isPendingB a = true := by simp [isPendingB, ha]
      simp [List.filter_cons, h1, h2]
      omega

/-- Claim C6 counterexample: a payment whose stored status is neither
paid nor pending (here the stored text overdue) falls in neither
partition, so paid plus remaining misses the total. -/
theorem history_overdue_breaks_partition :
    (customerHistory ⟨[], [payStoredOverdue]⟩ 7).paidAmount
        + (customerHistory ⟨[], [payStoredOverdue]⟩ 7).remainingAmount
      ≠ (customerHistory ⟨[], [payStoredOverdue]⟩ 7).totalAmount := by
  decide

/-- Claim C6 (amended): for a customer all of whose payments are paid or
pending, the history returns paidAmount plus remainingAmount equal to
totalAmount, lists the payments in ascending due date order, and the
listed payments are exactly the payments of that customer. -/
theorem history_partition_sorted (db : DB) (cid : Nat)
    (h : ∀ p ∈ db.payments, p.customerId = cid →
      p.status = "paid" ∨ p.status = "pending") :
    (customerHistory db cid).paidAmount
        + (customerHistory db cid).remainingAmount
      = (customerHistory db cid).totalAmount
    ∧ List.Sorted (fun a b => dueAscB a b = true)
        (customerHistory db cid).payments
    ∧ List.Perm (customerHistory db cid).payments
        (db.payments.filter (fun p => p.customerId == cid)) := by
  have hperm := sortByLe_perm dueAscB
    (db.payments.filter (fun p => p.customerId == cid))
  refine ⟨?_, ?_, hperm⟩
  · show (((sortByLe dueAscB
        (db.payments.filter (fun p => p.customerId == cid))).filter
          isPaidB).foldl (fun s p => s + p.amount) 0)
      + (((sortByLe dueAscB
        (db.payments.filter (fun p => p.customerId == cid))).filter
          isPendingB).foldl (fun s p => s + p.amount) 0)
      = (sortByLe dueAscB
          (db.payments.filter (fun p => p.customerId == cid))).foldl
            (fun s p => s + p.amount) 0
    rw [foldlAdd, foldlAdd, foldlAdd]
    simp only [zero_add]
    apply paidPendingSplit
    intro p hp
    have hp' := hperm.mem_iff.mp hp
    have hm := List.mem_filter.mp hp'
    exact h p hm.1 (by simpa using hm.2)
  · exact sortByLe_sorted
      (fun x y => optDateLeB_total x.dueDate y.dueDate)
      (fun x y z => optDateLeB_trans)
      (db.payments.filter (fun p => p.customerId == cid))

/-- Claim C6 witness: on a concrete customer whose payments are one paid
and one pending row, the history sums add up. -/
theorem history_partition_sorted_witness :
    (customerHistory dbTwo 1).paidAmount
        + (customerHistory dbTwo 1).remainingAmount
      = (customerHistory dbTwo 1).totalAmount :=
  (history_partition_sorted dbTwo 1 (by decide)).1

/-- Claim C7 counterexample: a search string made of the LIKE wildcard
percent returns a customer although it is not a substring of either the
name or the phone number, so the filter is not plain case-insensitive
substring matching on every search string. -/
theorem search_wildcard_not_substring :
    custA.id ∈ (customersReport dbOne dNow none (some "%") none).map
        (fun r => r.customer.id)
    ∧ ciContains custA.fullName "%" = false
    ∧ ciContains custA.phoneNumber "%" = false := by
  decide

/-- Claim C7 (amended): for every wildcard-free search string the
customer report returns exactly the customers whose full name or phone
number contains the search string case-insensitively; in particular a
phone-only match is returned. -/
theorem search_ci_substring :
    ∀ (db : DB) (now : Date) (s : String) (cid : Nat),
      noWildcards s = true →
      (cid ∈ (customersReport db now none (some s) none).map
          (fun r => r.customer.id)
        ↔ ∃ c ∈ db.customers, c.id = cid
            ∧ (ciContains c.fullName s
                || ciContains c.phoneNumber s) = true) := by
  intro db now s cid hs
  have hbase : ∀ c : Customer,
      c ∈ customersBase db now none (some s) none
        ↔ c ∈ db.customers
          ∧ (ciContains c.fullName s || ciContains c.phoneNumber s)
              = true := by
    intro c
    unfold customersBase
    rw [List.mem_filter]
    have hcond : (statusCondB db now none c && searchCondB (some s) c
        && brandCondB none c)
        = (ciContains c.fullName s || ciContains c.phoneNumber s) := by
      show (true && searchCondB (some s) c && true) = _
      rw [Bool.true_and, Bool.and_true]
      show (sqlLike c.fullName (likePattern s)
        || sqlLike c.phoneNumber (likePattern s)) = _
      rw [sqlLike_likePattern hs, sqlLike_likePattern hs]
    rw [hcond]
  rw [mem_customersReport]
  constructor
  · rintro ⟨c, hc, hcid⟩
    have hb := (hbase c).mp hc
    exact ⟨c, hb.1, hcid, hb.2⟩
  · rintro ⟨c, hc, hcid, hmatch⟩
    exact ⟨c, (hbase c).mpr ⟨hc, hmatch⟩, hcid⟩

/-- Claim C7 witness: the concrete search string 23 matches a customer
by phone number alone and the report returns that customer. -/
theorem search_ci_substring_witness :
    custA.id ∈ (customersReport dbOne dNow none (some "23") none).map
        (fun r => r.customer.id) :=
  (search_ci_substring dbOne dNow "23" custA.id (by decide)).mpr
    ⟨custA, by decide, rfl, by decide⟩

/-! ### Helpers for the monthly buckets -/

theorem perGeB_some_iff (a b c d : Nat) :
    perGeB (some (a, b)) (some (c, d)) = true
      ↔ (c < a ∨ (a = c ∧ d ≤ b)) := by
  simp only [perGeB, Bool.or_eq_true, Bool.and_eq_true, Nat.blt_eq,
    Nat.ble_eq, beq_iff_eq]

theorem perGeB_total (x y : Option (Nat × Nat)) :
    perGeB x y = true ∨ perGeB y x = true := by
  cases x with
  | none =>
    cases y with
    | none => exact Or.inl rfl
    | some py => exact Or.inr rfl
  | some px =>
    cases y with
    | none => exact Or.inl rfl
    | some py =>
      obtain ⟨a, b⟩ := px
      obtain ⟨c, d⟩ := py
      rw [perGeB_some_iff, perGeB_some_iff]
      omega

theorem perGeB_trans {x y z : Option (Nat × Nat)}
    (h₁ : perGeB x y = true) (h₂ : perGeB y z = true) :
    perGeB x z = true := by
  cases z with
  | none => cases x <;> rfl
  | some pz =>
    cases y with
    | none => exact absurd h₂ (by simp [perGeB])
    | some py =>
      cases x with
      | none => exact absurd h₁ (by simp [perGeB])
      | some px =>
        obtain ⟨a, b⟩ := px
        obtain ⟨c, d⟩ := py
        obtain ⟨e, f⟩ := pz
        rw [perGeB_some_iff] at h₁ h₂ ⊢
        omega

theorem countP_beq_one {κ : Type} [BEq κ] [LawfulBEq κ] {ks : List κ}
    (h : ks.Nodup) {a : κ} (ha : a ∈ ks) :
    ks.countP (fun x => x == a) = 1 := by
  induction ks with
  | nil => exact absurd ha (by simp)
  | cons x xs ih =>
    rw [List.nodup_cons] at h
    rw [List.countP_cons]
    by_cases hxa : (x == a) = true
    · have hx : x = a := eq_of_beq hxa
      have hzero : List.countP (fun y => y == a) xs = 0 := by
        rw [List.countP_eq_zero]
        intro y hy hbeq
        rw [hx] at h
        exact h.1 (by rw [← eq_of_beq hbeq]; exact hy)
      rw [hzero, if_pos hxa]
    · rcases List.mem_cons.mp ha with hax | hax
      · exact absurd (by rw [hax]; exact beq_self_eq_true x) hxa
      · rw [ih h.2 hax, if_neg hxa]

theorem sum_filter_lengths {α κ : Type} [BEq κ] [LawfulBEq κ]
    (key : α → κ) :
    ∀ (ks : List κ) (l : List α), ks.Nodup → (∀ a ∈ l, key a ∈ ks) →
      (ks.map (fun k => (l.filter (fun a => key a == k)).length)).sum
        = l.length := by
  intro ks
  induction ks with
  | nil =>
    intro l _ hcov
    have hl : l = [] :=
      List.eq_nil_iff_forall_not_mem.mpr
        (fun a ha => absurd (hcov a ha) (by simp))
    rw [hl]
    simp
  | cons k ks ih =>
    intro l hnd hcov
    rw [List.nodup_cons] at hnd
    rw [List.map_cons, List.sum_cons]
    have hcov' : ∀ a ∈ l.filter (fun a => !(key a == k)), key a ∈ ks := by
      intro a ha
      have hm := List.mem_filter.mp ha
      rcases List.mem_cons.mp (hcov a hm.1) with h | h
      · exfalso
        have hb : (key a == k) = true := by
          rw [h]
          exact beq_self_eq_true k
        rw [hb] at hm
        exact absurd hm.2 (by simp)
      · exact h
    have hmapeq : ks.map
        (fun k' => (l.filter (fun a => key a == k')).length)
        = ks.map (fun k' =>
            ((l.filter (fun a => !(key a == k))).filter
              (fun a => key a == k')).length) := by
      apply List.map_congr_left
      intro k' hk'
      rw [List.filter_filter]
      congr 1
      apply List.filter_congr
      intro a _
      by_cases hcase : (key a == k') = true
      · have hne : ¬ (key a == k) = true := by
          intro hb
          apply hnd.1
          have h1 : key a = k := eq_of_beq hb
          have h2 : key a = k' := eq_of_beq hcase
          rw [← h1, h2]
          exact hk'
        simp [hcase, hne]
      · have hfalse : (key a == k') = false := by
          cases hx : (key a == k')
          · rfl
          · exact absurd hx hcase
        simp [hfalse]
    rw [hmapeq, ih (l.filter (fun a => !(key a == k))) hnd.2 hcov']
    have hsplit := lengthFilterSplit (fun a => key a == k) l
    omega

/-- Claim C8: when every payment has a non-null due date, the monthly
report buckets partition the payments exactly once (the bucket sizes sum
to the payment count and each payment has exactly one bucket with its
period), the overdue amount of a bucket sums the pending payments of
that period due on or before now, and the buckets are ordered descending
by period. -/
theorem monthly_buckets (db : DB) (now : Date)
    (hdue : ∀ p ∈ db.payments, p.dueDate ≠ none) :
    ((monthlyReport db now).map (fun b => b.total_payments)).sum
        = db.payments.length
    ∧ (∀ p ∈ db.payments,
        ((monthlyReport db now).filter
          (fun b => b.period == periodOf p)).length = 1)
    ∧ (∀ b ∈ monthlyReport db now,
        b.overdue_amount
          = ((db.payments.filter
              (fun p => isOverdueAtMonthly now p
                && periodOf p == b.period)).map (fun p => p.amount)).sum)
    ∧ List.Sorted (fun b₁ b₂ => perGeB b₁.period b₂.period = true)
        (monthlyReport db now) := by
  have hunfold : monthlyReport db now
      = (sortByLe perGeB ((db.payments.map periodOf).dedup)).map
        (fun k => mkBucket now k
          (db.payments.filter (fun p => periodOf p == k))) := rfl
  have hkeysperm := sortByLe_perm perGeB ((db.payments.map periodOf).dedup)
  refine ⟨?_, ?_, ?_, ?_⟩
  · rw [hunfold, List.map_map]
    rw [(List.Perm.map ((fun b => b.total_payments) ∘
      (fun k => mkBucket now k
        (db.payments.filter (fun p => periodOf p == k)))) hkeysperm).sum_eq]
    show (((db.payments.map periodOf).dedup).map
        (fun k => (db.payments.filter
          (fun p => periodOf p == k)).length)).sum
      = db.payments.length
    exact sum_filter_lengths periodOf ((db.payments.map periodOf).dedup)
      db.payments (List.nodup_dedup _)
      (fun p hp => List.mem_dedup.mpr (List.mem_map.mpr ⟨p, hp, rfl⟩))
  · intro p hp
    rw [hunfold, List.filter_map, List.length_map,
      ← List.countP_eq_length_filter, hkeysperm.countP_eq]
    show List.countP (fun k => k == periodOf p)
      ((db.payments.map periodOf).dedup) = 1
    exact countP_beq_one (List.nodup_dedup _)
      (List.mem_dedup.mpr (List.mem_map.mpr ⟨p, hp, rfl⟩))
  · intro b hb
    rw [hunfold] at hb
    rcases List.mem_map.mp hb with ⟨k, hk, hbk⟩
    rw [← hbk]
    show (List.map (fun p => if isOverdueAtMonthly now p then p.amount else 0)
        (db.payments.filter (fun p => periodOf p == k))).sum = _
    rw [sumIfEqFilter, List.filter_filter]
    rfl
  · rw [hunfold]
    exact List.Pairwise.map _ (fun k₁ k₂ hk => hk)
      (sortByLe_sorted perGeB_total
  (fun x y z h₁ h₂ => perGeB_trans h₁ h₂) _)

/-- Claim C8 witness: on a concrete dataset with two dated payments the
bucket sizes sum to the number of payments. -/
theorem monthly_buckets_witness :
    ((monthlyReport dbTwo dNow).map (fun b => b.total_payments)).sum
      = dbTwo.payments.length :=
  (monthly_buckets dbTwo dNow (by decide)).1

end CarFinance
